import Mathlib

/-!
A verification development for the blastcube two-phase Rubik's-cube solver.

The definitions below are a shallow embedding of the Rust sources:
  - `src/cube/mod.rs` (Face), `src/move.rs` (Direction, Move, parsing),
  - `src/cube/facie.rs` (Location), `src/cube/surface.rs` (Cube),
  - `src/cube/coord.rs` (coordinates, transition tables, CoordCube),
  - `src/solver/kociemba.rs` (phases, heuristic tables, search),
  - `src/blast_machine_evaluator.rs` and `src/challenge.rs` (evaluators).

Machine integers are modelled as `Nat` (none of the embedded quantities can
overflow their Rust types on the inputs considered; `Duration` is modelled as
a count of nanoseconds).  Fallible operations (map indexing that can panic,
string parsing) return `Option`/`Except`.  Wall-clock-dependent code paths
are never taken by the embedded call sites (the solver builds its tables with
`max_setup = None`), so the embedding is pure.
-/

namespace Blastcube

/-- `Face` from `src/cube/mod.rs`.  The declaration order matters: the derived
Rust `Ord` (used by `could_follow` and by `Location::all`) is the declaration
order Front < Back < Left < Right < Up < Down. -/
inductive Face where
  | Front | Back | Left | Right | Up | Down
deriving DecidableEq, Repr, Fintype

/-- The index of a face in its declaration order; the derived Rust `Ord`
compares these indices. -/
def Face.idx : Face → Nat
  | .Front => 0 | .Back => 1 | .Left => 2 | .Right => 3 | .Up => 4 | .Down => 5

/-- Rust `a < b` on `Face` (derived `PartialOrd`). -/
def Face.ltF (a b : Face) : Bool := a.idx < b.idx

/-- `enum_iterator::all::<Face>()`: all faces in declaration order. -/
def Face.all : List Face := [.Front, .Back, .Left, .Right, .Up, .Down]

/-- `Face::same_axis` from `src/cube/mod.rs`.  The source returns `true` when
`a = b`, otherwise normalises to `a < b` and matches the pairs
(Front, Back), (Left, Right), (Up, Down); this unfolds to the symmetric
match below. -/
def Face.same_axis (a b : Face) : Bool :=
  if a = b then true
  else
    match a, b with
    | .Front, .Back | .Back, .Front => true
    | .Left, .Right | .Right, .Left => true
    | .Up, .Down | .Down, .Up => true
    | _, _ => false

/-- `Direction` from `src/move.rs`, in declaration order (the order matters
for `Move::all`). -/
inductive Direction where
  | Single | Double | Reverse
deriving DecidableEq, Repr, Fintype

/-- `Direction::reverse`. -/
def Direction.reverse : Direction → Direction
  | .Single => .Reverse
  | .Reverse => .Single
  | .Double => .Double

/-- `Move` from `src/move.rs`. -/
structure Move where
  face : Face
  direction : Direction
deriving DecidableEq, Repr, Fintype

/-- `Move::reverse`. -/
def Move.reverse (m : Move) : Move := ⟨m.face, m.direction.reverse⟩

/-- `Move::all`: faces in declaration order, each with the three directions in
declaration order. -/
def Move.all : List Move :=
  Face.all.flatMap fun f => [⟨f, .Single⟩, ⟨f, .Double⟩, ⟨f, .Reverse⟩]

/-- `Move::could_follow`: `self` may directly follow `other` during search. -/
def Move.could_follow (self other : Move) : Bool :=
  if !Face.same_axis self.face other.face then true
  else Face.ltF other.face self.face

/-- `Move::should_consider`: every adjacent pair `[a, b]` of the sequence
satisfies `b.could_follow(a)` (Rust `seq.windows(2)`). -/
def Move.should_consider : List Move → Bool
  | a :: b :: rest => b.could_follow a && Move.should_consider (b :: rest)
  | _ => true

/-- `Move::inverse_seq`: reverse the sequence and invert each move. -/
def Move.inverse_seq (seq : List Move) : List Move :=
  (seq.reverse).map Move.reverse

/-- `Location` from `src/cube/facie.rs`. -/
inductive Location where
  | Center (f : Face)
  | Edge (a b : Face)
  | Corner (a b c : Face)
deriving DecidableEq, Repr

/-- The edge pairs `(a, b)` enumerated by `Location::all` (`a < b`, distinct
axes), in iteration order. -/
def edgePairs : List (Face × Face) :=
  Face.all.flatMap fun a =>
    ((Face.all.filter fun b => !Face.same_axis a b && Face.ltF a b).map fun b => (a, b))

/-- The corner triples `(a, b, c)` enumerated by `Location::all`
(`a < b < c`, pairwise distinct axes), in iteration order. -/
def cornerTriples : List (Face × Face × Face) :=
  edgePairs.flatMap fun ab =>
    ((Face.all.filter fun c =>
        Face.ltF ab.2 c && !Face.same_axis ab.1 c && !Face.same_axis ab.2 c).map
      fun c => (ab.1, ab.2, c))

/-- `Location::all` from `src/cube/facie.rs`: 6 centers, then the 24 edge
stickers (each unordered edge contributing `Edge(a,b)` then `Edge(b,a)`),
then the 24 corner stickers (each unordered corner contributing
`Corner(a,b,c)`, `Corner(b,a,c)`, `Corner(c,a,b)`). -/
def Location.all : List Location :=
  (Face.all.map Location.Center)
    ++ (edgePairs.flatMap fun ab => [Location.Edge ab.1 ab.2, Location.Edge ab.2 ab.1])
    ++ (cornerTriples.flatMap fun t =>
          [Location.Corner t.1 t.2.1 t.2.2, Location.Corner t.2.1 t.1 t.2.2,
           Location.Corner t.2.2 t.1 t.2.1])

/-! ## The sticker cube (`src/cube/surface.rs`)

A `Cube` is six `Surface`s of eight stickers each (centres are implicit).
`Surface` index layout (from the `get` tables below): indices 0,1,2 are the
"top" row, 3 the "right" cell, 4,5,6 the "bottom" row, 7 the "left" cell of
the 3×3 face grid with the centre omitted. -/

/-- One face's eight movable stickers, `Surface([F; 8])`. -/
abbrev Surface := Fin 8 → Face

/-- The sticker cube: one `Surface` per `Face`. -/
abbrev Cube := Face → Surface

instance : DecidableEq Cube := by
  unfold Cube Surface
  infer_instance

/-- `Cube::solved`: every sticker of face `f` shows `f`. -/
def Cube.solved : Cube := fun f _ => f

/-- `Surface::rotate`'s index shift: the unit test in `surface.rs` pins
`rotate` to `new[i] = old[(i+6) % 8]`, `rotate_reverse` to
`new[i] = old[(i+2) % 8]` and `rotate_double` to `new[i] = old[(i+4) % 8]`. -/
def rotOffset : Direction → Fin 8
  | .Single => 6
  | .Reverse => 2
  | .Double => 4

/-- `Surface::top_mut` indices. -/
def topIdx : Fin 3 → Fin 8 | 0 => 0 | 1 => 1 | 2 => 2
/-- `Surface::bottom_mut` indices. -/
def bottomIdx : Fin 3 → Fin 8 | 0 => 4 | 1 => 5 | 2 => 6
/-- `Surface::right_mut` indices. -/
def rightIdx : Fin 3 → Fin 8 | 0 => 2 | 1 => 3 | 2 => 4
/-- `Surface::left_mut` indices. -/
def leftIdx : Fin 3 → Fin 8 | 0 => 6 | 1 => 7 | 2 => 0

/-- `Cube::slices` from `src/cube/surface.rs`: for each face, the four
adjacent three-sticker slices, in source order. -/
def slices : Face → Fin 4 → Face × (Fin 3 → Fin 8)
  | .Up, 0 => (.Left, topIdx)
  | .Up, 1 => (.Back, topIdx)
  | .Up, 2 => (.Right, topIdx)
  | .Up, 3 => (.Front, topIdx)
  | .Down, 0 => (.Left, bottomIdx)
  | .Down, 1 => (.Front, bottomIdx)
  | .Down, 2 => (.Right, bottomIdx)
  | .Down, 3 => (.Back, bottomIdx)
  | .Front, 0 => (.Up, bottomIdx)
  | .Front, 1 => (.Right, leftIdx)
  | .Front, 2 => (.Down, topIdx)
  | .Front, 3 => (.Left, rightIdx)
  | .Back, 0 => (.Up, topIdx)
  | .Back, 1 => (.Left, leftIdx)
  | .Back, 2 => (.Down, bottomIdx)
  | .Back, 3 => (.Right, rightIdx)
  | .Right, 0 => (.Up, rightIdx)
  | .Right, 1 => (.Back, leftIdx)
  | .Right, 2 => (.Down, rightIdx)
  | .Right, 3 => (.Front, rightIdx)
  | .Left, 0 => (.Up, leftIdx)
  | .Left, 1 => (.Front, leftIdx)
  | .Left, 2 => (.Down, leftIdx)
  | .Left, 3 => (.Back, rightIdx)

/-- How far along the four slices a slice's new content comes from:
`Single` sets `slices[k] := slices[k+1]` (and `slices[3] := old slices[0]`),
`Reverse` sets `slices[k] := slices[k-1]`, `Double` swaps opposite slices. -/
def sliceShift : Direction → Fin 4
  | .Single => 1
  | .Reverse => 3
  | .Double => 2

/-- Search the four slices of `face` for the slice position holding sticker
`(f, i)`; returns the slice number and the position within the slice. -/
def findSlice (face : Face) (f : Face) (i : Fin 8) : Option (Fin 4 × Fin 3) :=
  (List.finRange 4).findSome? fun k =>
    ((List.finRange 3).findSome? fun t =>
      if (slices face k).1 = f ∧ (slices face k).2 t = i then some (k, t) else none)

/-- The source sticker for each target sticker under a move: the faithful
functional reading of `Cube::rotate` (the four slices live on four distinct
surfaces, all distinct from the rotating face, so the imperative update in
the source is a simultaneous permutation). -/
def srcOf (m : Move) (f : Face) (i : Fin 8) : Face × Fin 8 :=
  if f = m.face then (f, i + rotOffset m.direction)
  else
    match findSlice m.face f i with
    | some (k, t) =>
        let s := slices m.face (k + sliceShift m.direction)
        (s.1, s.2 t)
    | none => (f, i)

/-- `Cube::apply` (via `Cube::rotate`). -/
def Cube.apply (c : Cube) (m : Move) : Cube := fun f i =>
  c (srcOf m f i).1 (srcOf m f i).2

/-- `CubeLike::apply_all`: fold `apply` over the sequence. -/
def Cube.apply_all (c : Cube) (ms : List Move) : Cube := ms.foldl Cube.apply c

/-- The `(surface, index)` position of a sticker location, from the index
tables of `Cube::get` in `src/cube/surface.rs`.  `none` for centres (whose
colour is not stored).  The `unreachable!()` arms of the source (same-axis
argument pairs, which never occur in `Location::all`) are given index 0. -/
def locPos : Location → Option (Face × Fin 8)
  | .Center _ => none
  | .Edge s against =>
      let index : Fin 8 :=
        match s, against with
        | _, .Up => 1
        | _, .Down => 5
        | .Front, .Left => 7
        | .Front, .Right => 3
        | .Back, .Left => 3
        | .Back, .Right => 7
        | .Left, .Front => 3
        | .Left, .Back => 7
        | .Right, .Front => 7
        | .Right, .Back => 3
        | .Up, .Left | .Down, .Left => 7
        | .Up, .Right | .Down, .Right => 3
        | .Up, .Front => 5
        | .Up, .Back => 1
        | .Down, .Front => 1
        | .Down, .Back => 5
        | _, _ => 0
      some (s, index)
  | .Corner s e p =>
      let index : Fin 8 :=
        match s, e, p with
        | .Front, .Left, .Up => 0
        | .Front, .Left, .Down => 6
        | .Front, .Right, .Up => 2
        | .Front, .Right, .Down => 4
        | .Back, .Left, .Up => 2
        | .Back, .Left, .Down => 4
        | .Back, .Right, .Up => 0
        | .Back, .Right, .Down => 6
        | .Left, .Front, .Up => 2
        | .Left, .Front, .Down => 4
        | .Left, .Back, .Up => 0
        | .Left, .Back, .Down => 6
        | .Right, .Front, .Up => 0
        | .Right, .Front, .Down => 6
        | .Right, .Back, .Up => 2
        | .Right, .Back, .Down => 4
        | .Up, .Front, .Left => 6
        | .Up, .Front, .Right => 4
        | .Up, .Back, .Left => 0
        | .Up, .Back, .Right => 2
        | .Down, .Front, .Left => 0
        | .Down, .Front, .Right => 2
        | .Down, .Back, .Left => 6
        | .Down, .Back, .Right => 4
        | _, _, _ => 0
      some (s, index)

/-- `Cube::get`. -/
def Cube.get (c : Cube) (l : Location) : Face :=
  match locPos l with
  | some p => c p.1 p.2
  | none =>
      match l with
      | .Center f => f
      | _ => .Front

/-! ## Coordinates (`src/cube/coord.rs`, duplicated in `src/solver/kociemba.rs`) -/

/-- `Axis` (private helper in both coordinate modules). -/
inductive Axis where
  | FB | UD | LR
deriving DecidableEq, Repr

/-- `From<Face> for Axis`. -/
def Face.axis : Face → Axis
  | .Up | .Down => .UD
  | .Front | .Back => .FB
  | .Left | .Right => .LR

/-- Is the face `Up` or `Down`? (the `matches!(…, Face::Up | Face::Down)`
guard of `corner_orientation`). -/
def Face.isUD : Face → Bool
  | .Up | .Down => true
  | _ => false

/-- Is the face one of `Back`, `Right`, `Down` (the skip pattern for the BRD
cubie in `corner_orientation`)? -/
def Face.isBRD : Face → Bool
  | .Back | .Right | .Down => true
  | _ => false

/-- The base-3 digit contributed to `corner_orientation` by the location
`loc` when its sticker shows `x`: `none` when `corner_orientation` skips the
location (non-corners, the BRD cubie, and stickers that are not U/D-coloured),
matching the arms of the fold in the source in order. -/
def coDigitF (loc : Location) (x : Face) : Option Nat :=
  match loc with
  | .Center _ | .Edge _ _ => none
  | .Corner a b c =>
      if a.isBRD && b.isBRD && c.isBRD then none
      else if !x.isUD then none
      else some (match a with
        | .Up | .Down => 0
        | .Front | .Back => 1
        | .Left | .Right => 2)

/-- `corner_orientation`: accumulate the base-3 digits over `Location::all`.
(The source also counts the contributing locations and asserts the count is
7; the count is modelled separately by `co_count`.) -/
def corner_orientation (c : Cube) : Nat :=
  Location.all.foldl
    (fun v loc =>
      match coDigitF loc (c.get loc) with
      | none => v
      | some d => v * 3 + d) 0

/-- The number of locations contributing a digit to `corner_orientation`
(the source asserts this equals 7). -/
def co_count (c : Cube) : Nat :=
  (Location.all.filterMap (fun loc => coDigitF loc (c.get loc))).length

/-- The first `filter_map` stage of `edge_orientation`: the ordered edge
locations except the two stickers of the BR edge, in `Location::all` order. -/
def eoPairs : List (Face × Face) :=
  Location.all.filterMap fun loc =>
    match loc with
    | .Center _ | .Corner _ _ _ => none
    | .Edge .Back .Back | .Edge .Back .Right
    | .Edge .Right .Back | .Edge .Right .Right => none
    | .Edge ma mi => some (ma, mi)

/-- The second `filter_map` stage of `edge_orientation`: given the colours on
the `(major, minor)` and `(minor, major)` stickers of an edge, `none` when the
source skips the pair and otherwise the "oriented" bit, matching the source's
match arms in order. -/
def eoDigitF (thisF otherF major minor : Face) : Option Bool :=
  match thisF.axis, otherF.axis, major.axis, minor.axis with
  | _, .UD, _, _ => none
  | .UD, _, .UD, _ => some true
  | .UD, _, .FB, .LR => some true
  | .UD, _, _, _ => some false
  | _, .FB, _, _ => none
  | .FB, .LR, .UD, _ => some true
  | .FB, .LR, .FB, .LR => some true
  | .FB, .LR, _, _ => some false
  | .LR, _, _, _ => none

/-- `edge_orientation`: accumulate base-2 digits (0 for oriented, 1 for not)
over the edge pairs.  (The source asserts the digit count is 11, modelled by
`eo_count`.) -/
def edge_orientation (c : Cube) : Nat :=
  eoPairs.foldl
    (fun v p =>
      match eoDigitF (c.get (.Edge p.1 p.2)) (c.get (.Edge p.2 p.1)) p.1 p.2 with
      | none => v
      | some good => v * 2 + (if good then 0 else 1)) 0

/-- The number of digits contributed to `edge_orientation` (the source
asserts this equals 11). -/
def eo_count (c : Cube) : Nat :=
  (eoPairs.filterMap (fun p =>
    eoDigitF (c.get (.Edge p.1 p.2)) (c.get (.Edge p.2 p.1)) p.1 p.2)).length

/-- `factorial` from `src/cube/coord.rs`. -/
def fact : Nat → Nat
  | 0 => 1
  | 1 => 1
  | n + 2 => (n + 2) * fact (n + 1)

/-- Sort two faces by the derived order (Rust `faces.sort()` on two items). -/
def sort2 (a b : Face) : Face × Face :=
  if b.ltF a then (b, a) else (a, b)

/-- Sort three faces by the derived order (Rust `faces.sort()`). -/
def sort3 (a b c : Face) : Face × Face × Face :=
  let p := sort2 a b
  let q := sort2 p.2 c
  let r := sort2 p.1 q.1
  (r.1, r.2, q.2)

/-- The corner-cubie identifier table of `corner_position` (the
`unreachable!()` arm, hit only by colour triples that are no corner cubie, is
modelled as 0). -/
def cornerId : Face × Face × Face → Nat
  | (.Front, .Left, .Up) => 0
  | (.Front, .Left, .Down) => 1
  | (.Front, .Right, .Up) => 2
  | (.Front, .Right, .Down) => 3
  | (.Back, .Left, .Up) => 4
  | (.Back, .Left, .Down) => 5
  | (.Back, .Right, .Up) => 6
  | (.Back, .Right, .Down) => 7
  | _ => 0

/-- The edge-cubie identifier table of `edge_position` (`unreachable!()`
modelled as 0). -/
def edgeId : Face × Face → Nat
  | (.Front, .Left) => 0
  | (.Front, .Right) => 1
  | (.Front, .Up) => 2
  | (.Front, .Down) => 3
  | (.Back, .Left) => 4
  | (.Back, .Right) => 5
  | (.Back, .Up) => 6
  | (.Back, .Down) => 7
  | (.Left, .Up) => 8
  | (.Left, .Down) => 9
  | (.Right, .Up) => 10
  | (.Right, .Down) => 11
  | _ => 0

/-- The Lehmer-code fold shared by `corner_position` and `edge_position`:
`Σ_{j ≥ 1} j! · #{k < j : ids[k] > ids[j]}`. -/
def lehmer (ids : List Nat) : Nat :=
  (((ids.enum.drop 1).map fun p =>
      ((ids.take p.1).filter fun o => p.2 < o).length).enum.foldl
    (fun v p => v + fact (p.1 + 1) * p.2) 0)

/-- `corner_position`: identify the cubie in each canonical corner slot
(slots in `Location::all` order, i.e. `cornerTriples`) and Lehmer-encode the
resulting sequence of identifiers. -/
def corner_position (c : Cube) : Nat :=
  lehmer (cornerTriples.map fun t =>
    cornerId (sort3 (c.get (.Corner t.1 t.2.1 t.2.2))
                    (c.get (.Corner t.2.1 t.1 t.2.2))
                    (c.get (.Corner t.2.2 t.1 t.2.1))))

/-- `edge_position`: same scheme on the canonical edge slots (`edgePairs`). -/
def edge_position (c : Cube) : Nat :=
  lehmer (edgePairs.map fun p =>
    edgeId (sort2 (c.get (.Edge p.1 p.2)) (c.get (.Edge p.2 p.1))))

/-! ## Domino predicates (`src/solver/kociemba.rs`) -/

/-- `is_domino_move`: any Up/Down move, or any double turn. -/
def is_domino_move (m : Move) : Bool :=
  match m.face, m.direction with
  | .Up, _ => true
  | .Down, _ => true
  | _, .Double => true
  | _, _ => false

/-- `domino_moves()`. -/
def domino_moves : List Move := Move.all.filter is_domino_move

/-- The per-location test of `is_domino_cube`, with the source's match arms
in order (Lean 4 lacks nested or-patterns, so each Rust arm is expanded into
the combinations it covers; the relative order of the arms is preserved).
Note the fourth Rust arm, `(Edge(Front|Back, Left|Right), Front|Back) =>
true`, is subsumed by the following arm `(Edge(Front|Back, _), _) => true`. -/
def dominoOk (l : Location) (x : Face) : Bool :=
  match l, x with
  | .Center _, _ => true
  | .Edge .Up _, .Up => true
  | .Edge .Up _, .Down => true
  | .Edge .Down _, .Up => true
  | .Edge .Down _, .Down => true
  | .Corner .Up _ _, .Up => true
  | .Corner .Up _ _, .Down => true
  | .Corner .Down _ _, .Up => true
  | .Corner .Down _ _, .Down => true
  | .Edge .Front .Left, .Front => true
  | .Edge .Front .Left, .Back => true
  | .Edge .Front .Right, .Front => true
  | .Edge .Front .Right, .Back => true
  | .Edge .Back .Left, .Front => true
  | .Edge .Back .Left, .Back => true
  | .Edge .Back .Right, .Front => true
  | .Edge .Back .Right, .Back => true
  | .Edge .Front _, _ => true
  | .Edge .Back _, _ => true
  | .Edge .Left _, _ => true
  | .Edge .Right _, _ => true
  | .Corner .Front _ _, _ => true
  | .Corner .Back _ _, _ => true
  | .Corner .Left _ _, _ => true
  | .Corner .Right _ _, _ => true
  | _, _ => false

/-- `is_domino_cube`: every location passes `dominoOk`. -/
def is_domino_cube (c : Cube) : Bool :=
  Location.all.all fun l => dominoOk l (c.get l)

/-! ## Durations and evaluators (`src/challenge.rs`,
`src/blast_machine_evaluator.rs`)

`Duration` is modelled as a count of nanoseconds (a `Nat`; Rust `Duration`
is 64-bit seconds plus sub-second nanoseconds, and none of the embedded
arithmetic overflows it on the inputs considered). -/

/-- `Duration::from_millis`. -/
def millis (n : Nat) : Nat := n * 1000000

/-- `Duration::MAX` in nanoseconds: `u64::MAX` seconds plus `10^9 - 1`
nanoseconds. -/
def DurationMAX : Nat := (2 ^ 64 - 1) * 1000000000 + (1000000000 - 1)

/-- The `Evaluator` trait: a cost model on move sequences.  The trait's
default `min_time` returns `Duration::default()` (zero); each instance below
models the corresponding `impl` including its choice of `min_time`. -/
structure Evaluator where
  eval : List Move → Nat
  min_time : List Move → Nat

/-- The cost of one move of `BlastMachineEvaluator::eval` given the previous
move, matching the source's match arms in order: a move on the same axis as
its predecessor is free, otherwise a double turn costs 14 ms and any other
move 10 ms. -/
def blastCost (last : Option Move) (m : Move) : Nat :=
  match last, m with
  | some l, m => if Face.same_axis l.face m.face then 0
                 else if m.direction = .Double then millis 14 else millis 10
  | none, m => if m.direction = .Double then millis 14 else millis 10

/-- `BlastMachineEvaluator::eval` unrolled from an arbitrary `last_move`
state. -/
def blastEvalFrom (last : Option Move) : List Move → Nat
  | [] => 0
  | m :: rest => blastCost last m + blastEvalFrom (some m) rest

/-- `BlastMachineEvaluator::eval`. -/
def blastEval (seq : List Move) : Nat := blastEvalFrom none seq

/-- `BlastMachineEvaluator::min_time`: discard the first and last moves and
evaluate the interior (zero for sequences of fewer than two moves). -/
def blastMinTime (seq : List Move) : Nat :=
  match seq with
  | [] => 0
  | [_] => 0
  | _ :: rest => blastEval rest.dropLast

/-- `BlastMachineEvaluator` as an `Evaluator`. -/
def BlastMachineEvaluator : Evaluator := ⟨blastEval, blastMinTime⟩

/-- The blanket `impl<F: Fn(&[Move]) -> Duration> Evaluator for F` from
`src/challenge.rs`: both `eval` and `min_time` call the closure on the whole
sequence (the blanket impl overrides the trait's zero default for
`min_time`). -/
def Evaluator.ofFn (f : List Move → Nat) : Evaluator := ⟨f, f⟩

/-- `Challenge` from `src/challenge.rs`. -/
structure Challenge where
  inspection : Nat
  evaluator : Evaluator

/-! ## Move parsing (`Move::from_str` in `src/move.rs`)

Strings are modelled as lists of characters; the parser reads the first
character (the face, case-insensitive) and the second character (the optional
direction) and never examines any further character. -/

/-- The apostrophe character (the reverse-direction marker). -/
def tickChar : Char := Char.ofNat 39

/-- The face-letter table of `Move::from_str`. -/
def faceOfChar (c : Char) : Option Face :=
  if c = 'F' ∨ c = 'f' then some .Front
  else if c = 'R' ∨ c = 'r' then some .Right
  else if c = 'U' ∨ c = 'u' then some .Up
  else if c = 'L' ∨ c = 'l' then some .Left
  else if c = 'B' ∨ c = 'b' then some .Back
  else if c = 'D' ∨ c = 'd' then some .Down
  else none

/-- `Move::from_str`: `Except` models `anyhow::Result` (the `String` is the
error message's shape; only success/failure matters to the claims). -/
def Move.from_str (s : List Char) : Except String Move :=
  match s with
  | [] => .error "No face for move"
  | fc :: rest =>
      match faceOfChar fc with
      | none => .error "Unrecognized face"
      | some face =>
          match rest with
          | [] => .ok ⟨face, .Single⟩
          | dc :: _ =>
              if dc = tickChar then .ok ⟨face, .Reverse⟩
              else if dc = '2' then .ok ⟨face, .Double⟩
              else .error "Unrecognized direction"

/-! ## The Kociemba solver (`src/solver/kociemba.rs`) -/

/-- `Phase`: allowed moves, goal predicate, and heuristics.  A heuristic
(`Box<dyn Heuristic>`) is modelled by its `min_time` function. -/
structure Phase where
  allowed_moves : List Move
  finished_when : Cube → Bool
  heuristics : List (Cube → Nat)

/-- `Phase::init`. -/
def Phase.init (allowed_moves : List Move) (finished_when : Cube → Bool)
    (heuristics : List (Cube → Nat)) : Phase :=
  ⟨allowed_moves, finished_when, heuristics⟩

/-- `Phase::min_time`: the maximum of the heuristics' values
(`max().unwrap_or_default()`). -/
def Phase.min_time (p : Phase) (c : Cube) : Nat :=
  ((p.heuristics.map fun h => h c).max?).getD 0

/-- `Phase::is_finished`. -/
def Phase.is_finished (p : Phase) (c : Cube) : Bool := p.finished_when c

/-- `Search` from `src/solver/kociemba.rs`. -/
inductive Search where
  | NotFound (next : Nat)
  | Found (moves : List Move)
deriving DecidableEq, Repr

/-- The `fold` combiner inside `Kociemba::find_solution`: keep the better
`Found` (by evaluator cost, ties to the earlier one), else the smaller
`NotFound` bound. -/
def combineSearch (E : Evaluator) : Search → Search → Search
  | .NotFound a, .NotFound b => .NotFound (min a b)
  | .Found m, .NotFound _ => .Found m
  | .NotFound _, .Found m => .Found m
  | .Found a, .Found b => if E.eval a ≤ E.eval b then .Found a else .Found b

/-- The `fold` over the candidate moves of `find_solution`: child results
(computed by `child`, which is the recursive search one fuel level down)
are combined left-to-right, starting from `NotFound(Duration::MAX)`;
`none` (fuel exhaustion in a child) propagates. -/
def fsFold (E : Evaluator) (child : Cube → List Move → Option Search)
    (cube : Cube) (move_stack : List Move) :
    List Move → Search → Option Search
  | [], best => some best
  | mv :: rest, best =>
      match child (cube.apply mv) (move_stack ++ [mv]) with
      | none => none
      | some sub => fsFold E child cube move_stack rest (combineSearch E best sub)

/-- `Kociemba::find_solution`.  The Rust function recurses without a
structural bound (termination comes from the cost bound); the embedding
adds explicit fuel and returns `none` when the fuel runs out, so any
`some` result is the source's result. -/
def find_solution (E : Evaluator) : Nat → Nat → Cube → List Move → Phase →
    Option Search
  | 0, _, _, _, _ => none
  | fuel + 1, max_time, cube, move_stack, phase =>
      let this_time := E.eval move_stack + phase.min_time cube
      if max_time < this_time then some (.NotFound this_time)
      else if phase.is_finished cube then some (.Found move_stack)
      else
        let last_move := move_stack.getLast?
        let moves := phase.allowed_moves.filter fun mv =>
          match last_move with
          | none => true
          | some l => mv.could_follow l
        fsFold E (fun c s => find_solution E fuel max_time c s phase)
          cube move_stack moves (.NotFound DurationMAX)

/-- The `loop` of `Kociemba::solve_to`, with fuel for the outer iterations
(`iters`) and for each inner search (`fuel`). -/
def solve_to_loop (E : Evaluator) (iters fuel : Nat) (cube : Cube) (pre : List Move)
    (phase : Phase) (best_time : Nat) : Option (List Move) :=
  match iters with
  | 0 => none
  | iters + 1 =>
      match find_solution E fuel best_time cube pre phase with
      | some (.Found moves) => some moves
      | some (.NotFound next_best_time) =>
          solve_to_loop E iters fuel cube pre phase next_best_time
      | none => none

/-- `Kociemba::solve_to`: apply the prefix, then iteratively deepen starting
from the prefix's cost. -/
def solve_to (E : Evaluator) (iters fuel : Nat) (cube : Cube) (phase : Phase)
    (pre : List Move) : Option (List Move) :=
  let cube2 := cube.apply_all pre
  solve_to_loop E iters fuel cube2 pre phase (E.eval pre)

/-- The worker spawned by `Kociemba::solve`: solve to the first phase's goal,
then restart from the original cube with that prefix, and emit the prefix
followed by the remainder of the full solution. -/
def worker (E : Evaluator) (iters1 fuel1 iters2 fuel2 : Nat) (cube : Cube)
    (ph1 ph2 : Phase) : Option (List Move) :=
  match solve_to E iters1 fuel1 cube ph1 [] with
  | none => none
  | some to_domino =>
      match solve_to E iters2 fuel2 cube ph2 to_domino with
      | none => none
      | some solution => some (to_domino ++ solution.drop to_domino.length)

/-! ### `HeuristicTable` (pattern databases)

The associative structure of the Rust `HashMap<u32, Duration>` is modelled
as an association list with insert-replace semantics; only `get`/`insert`
are used, so iteration order is irrelevant. -/

/-- Lookup in an association list (Rust `HashMap::get`). -/
def alGet (m : List (Nat × Nat)) (k : Nat) : Option Nat :=
  (m.find? fun e => e.1 = k).map (·.2)

/-- Insert-or-replace (Rust `HashMap::insert`). -/
def alPut (m : List (Nat × Nat)) (k v : Nat) : List (Nat × Nat) :=
  (k, v) :: m.filter fun e => e.1 ≠ k

/-- `HeuristicTable::expand_to_depth`, state-passing on the map; returns the
new map and whether any entry was added or improved.  The source's
`(_, None) => unreachable!()` arm (an interior node whose value is absent,
impossible because every prefix is inserted at a shallower depth) is
modelled as "no update". -/
def expand_to_depth (simplifier : Cube → Nat) (E : Evaluator)
    (allowed_moves : List Move) : Nat → List Move → List (Nat × Nat) →
    List (Nat × Nat) × Bool
  | depth, move_stack, map =>
      let inv := Move.inverse_seq move_stack
      if !Move.should_consider inv then (map, false)
      else
        let value := simplifier (Cube.solved.apply_all move_stack)
        let time := E.min_time inv
        match depth, alGet map value with
        | 0, none => (alPut map value time, true)
        | 0, some t => if time < t then (alPut map value time, true) else (map, false)
        | d + 1, some t =>
            if t < time then (map, false)
            else allowed_moves.foldl
              (fun st mv =>
                let r := expand_to_depth simplifier E allowed_moves d
                  (move_stack ++ [mv]) st.1
                (r.1, st.2 || r.2))
              (map, false)
        | _ + 1, none => (map, false)
termination_by depth _ _ => depth

/-- The `for depth in 0..21` loop of `HeuristicTable::init` (with
`max_setup = None`, the only configuration the solver uses, the wall-clock
check is never consulted): run depths from the list until one produces no
update. -/
def htInitLoop (simplifier : Cube → Nat) (E : Evaluator)
    (allowed_moves : List Move) : List Nat → List (Nat × Nat) → List (Nat × Nat)
  | [], map => map
  | d :: ds, map =>
      let r := expand_to_depth simplifier E allowed_moves d [] map
      if r.2 then htInitLoop simplifier E allowed_moves ds r.1 else r.1

/-- `HeuristicTable::init` with `max_setup = None` (an exhaustive table). -/
def HeuristicTable.init (simplifier : Cube → Nat) (allowed_moves : List Move)
    (E : Evaluator) : List (Nat × Nat) :=
  htInitLoop simplifier E allowed_moves (List.range 21) []

/-- `<HeuristicTable as Heuristic>::min_time`: look the simplified cube up;
a missing key in an exhaustive table is a panic in the source, modelled as 0
(the solver claims below never evaluate this branch). -/
def htMinTime (simplifier : Cube → Nat) (map : List (Nat × Nat)) (c : Cube) : Nat :=
  (alGet map (simplifier c)).getD 0

/-- The `Kociemba` solver state. -/
structure Kociemba where
  challenge : Challenge
  to_domino : Phase
  post_domino : Phase

/-- `Kociemba::init` (`Solver::init`): the to-domino phase with all 18 moves,
the `is_domino_cube` goal and the two exhaustive heuristic tables, and the
post-domino phase with the 10 domino moves, the `cube = solved` goal and no
heuristics. -/
def Kociemba.init (challenge : Challenge) : Kociemba :=
  { to_domino :=
      Phase.init Move.all is_domino_cube
        [htMinTime corner_orientation
          (HeuristicTable.init corner_orientation Move.all challenge.evaluator),
         htMinTime edge_orientation
          (HeuristicTable.init edge_orientation Move.all challenge.evaluator)]
    post_domino :=
      Phase.init domino_moves (fun c => decide (c = Cube.solved)) []
    challenge }

/-- `Kociemba::solve`: run the worker on the two phases. -/
def Kociemba.solve (K : Kociemba) (iters1 fuel1 iters2 fuel2 : Nat)
    (cube : Cube) : Option (List Move) :=
  worker K.challenge.evaluator iters1 fuel1 iters2 fuel2 cube K.to_domino K.post_domino

/-! ## Transition tables and `CoordCube` (`src/cube/coord.rs`)

The coordinate functions of `coord.rs` are the ones embedded above (the
`u16`/`u32` returns are `Nat`s here).  Their assertions are modelled by the
`Checked` variants below, which return `none` exactly when the corresponding
Rust call panics.  A `SingleTable` (`HashMap<Move, BTreeMap<T, T>>`) is
modelled as a flat association list of `(move, from, to)` entries; only
lookup, guarded insertion and `has_outgoing` are used, so the flat shape is
faithful. -/

/-- `corner_orientation` including its `assert_eq!(count, 7)`: `none` models
the panic. -/
def coChecked (c : Cube) : Option Nat :=
  if co_count c = 7 then some (corner_orientation c) else none

/-- `edge_orientation` including its `assert_eq!(count, 11)`. -/
def eoChecked (c : Cube) : Option Nat :=
  if eo_count c = 11 then some (edge_orientation c) else none

/-- `cornerId` including the `unreachable!()` arm (a colour triple that is
no corner cubie panics). -/
def cornerIdOpt : Face × Face × Face → Option Nat
  | (.Front, .Left, .Up) => some 0
  | (.Front, .Left, .Down) => some 1
  | (.Front, .Right, .Up) => some 2
  | (.Front, .Right, .Down) => some 3
  | (.Back, .Left, .Up) => some 4
  | (.Back, .Left, .Down) => some 5
  | (.Back, .Right, .Up) => some 6
  | (.Back, .Right, .Down) => some 7
  | _ => none

/-- `edgeId` including the `unreachable!()` arm. -/
def edgeIdOpt : Face × Face → Option Nat
  | (.Front, .Left) => some 0
  | (.Front, .Right) => some 1
  | (.Front, .Up) => some 2
  | (.Front, .Down) => some 3
  | (.Back, .Left) => some 4
  | (.Back, .Right) => some 5
  | (.Back, .Up) => some 6
  | (.Back, .Down) => some 7
  | (.Left, .Up) => some 8
  | (.Left, .Down) => some 9
  | (.Right, .Up) => some 10
  | (.Right, .Down) => some 11
  | _ => none

/-- `corner_position` with its panics (`unreachable!()` on an invalid cubie;
the `assert_eq!(…, 8)` on the slot count never fires: `cornerTriples` has
eight entries by construction). -/
def cpChecked (c : Cube) : Option Nat :=
  (cornerTriples.mapM fun t =>
    cornerIdOpt (sort3 (c.get (.Corner t.1 t.2.1 t.2.2))
                       (c.get (.Corner t.2.1 t.1 t.2.2))
                       (c.get (.Corner t.2.2 t.1 t.2.1)))).map lehmer

/-- `edge_position` with its panics. -/
def epChecked (c : Cube) : Option Nat :=
  (edgePairs.mapM fun p =>
    edgeIdOpt (sort2 (c.get (.Edge p.1 p.2)) (c.get (.Edge p.2 p.1)))).map lehmer

/-- A populated `SingleTable`: the `(move, from, to)` entries. -/
abbrev SingleTable := List (Move × Nat × Nat)

/-- `SingleTable::get`: `self.0[&move_][&from]`, which panics (here `none`)
when the entry is absent. -/
def stGet (t : SingleTable) (from_v : Nat) (m : Move) : Option Nat :=
  (t.find? fun e => e.1 = m ∧ e.2.1 = from_v).map (·.2.2)

/-- `SingleTable::insert`: identity transitions are silently dropped
(`if from == to { return; }`); re-inserting an existing key is an assertion
failure (`none`). -/
def stInsert (t : SingleTable) (from_v : Nat) (m : Move) (to_v : Nat) :
    Option SingleTable :=
  if from_v = to_v then some t
  else if (t.any fun e => e.1 = m ∧ e.2.1 = from_v) then none
  else some (t ++ [(m, from_v, to_v)])

/-- `SingleTable::has_outgoing`. -/
def hasOutgoing (t : SingleTable) (v : Nat) : Bool :=
  t.any fun e => e.2.1 = v

/-- `pop_front` on the `BTreeMap` work queue: remove the entry with the
least key (queue keys are kept unique by the `contains_key` guard). -/
def popMin (q : List (Nat × Cube)) : Option ((Nat × Cube) × List (Nat × Cube)) :=
  match (q.map (·.1)).min? with
  | none => none
  | some k =>
      match q.find? (fun e => e.1 = k) with
      | none => none
      | some e => some (e, q.filter fun e2 => e2.1 ≠ k)

/-- The result of a table construction: `panicked` models an assertion
failure in the source, `outOfFuel` is the embedding's explicit fuel bound,
and `built` is normal completion. -/
inductive BuildResult where
  | panicked
  | outOfFuel
  | built (t : SingleTable)
deriving DecidableEq, Repr

/-- The `for m in Move::all()` body of `SingleTable::populate_with`: apply
each move to the dequeued cube, evaluate the coordinate (panic propagates),
insert the transition (re-insert panics), and enqueue unseen coordinate
values. -/
def populateMoves (f : Cube → Option Nat) (from_v : Nat) (fromC : Cube) :
    List Move → SingleTable → List (Nat × Cube) →
    Option (SingleTable × List (Nat × Cube))
  | [], t, q => some (t, q)
  | m :: rest, t, q =>
      let toC := fromC.apply m
      match f toC with
      | none => none
      | some to_v =>
          match stInsert t from_v m to_v with
          | none => none
          | some t2 =>
              let should_expand :=
                !(q.any fun e => e.1 = to_v) && !(hasOutgoing t2 to_v)
                  && to_v ≠ from_v
              let q2 := if should_expand then q ++ [(to_v, toC)] else q
              populateMoves f from_v fromC rest t2 q2

/-- The work-queue loop of `SingleTable::populate_with` (with explicit
fuel).  Each iteration pops the least coordinate, asserts it has no outgoing
edges yet, and expands it by all moves. -/
def populateLoop (f : Cube → Option Nat) :
    Nat → SingleTable → List (Nat × Cube) → BuildResult
  | 0, _, _ => .outOfFuel
  | fuel + 1, t, q =>
      match popMin q with
      | none => .built t
      | some (e, q2) =>
          if hasOutgoing t e.1 then .panicked
          else
            match populateMoves f e.1 e.2 Move.all t q2 with
            | none => .panicked
            | some r => populateLoop f fuel r.1 r.2

/-- `SingleTable::populate_with`, seeded with the solved cube. -/
def populate_with (f : Cube → Option Nat) (fuel : Nat) : BuildResult :=
  match f Cube.solved with
  | none => .panicked
  | some v => populateLoop f fuel [] [(v, Cube.solved)]

/-- The `corner_orientation` transition table build (the first build
performed by `TransitionTable::init`). -/
def buildCO (fuel : Nat) : BuildResult := populate_with coChecked fuel

/-- `TransitionTable::init`: populate the four tables in source order; a
panic in any build (modelled together with fuel exhaustion as `none`) is a
panic of the whole initialization, which runs inside the lazy static
forced by `CoordCube::apply`. -/
def TransitionTableInit (fuel : Nat) :
    Option (SingleTable × SingleTable × SingleTable × SingleTable) :=
  match buildCO fuel with
  | .built t1 =>
      match populate_with eoChecked fuel with
      | .built t2 =>
          match populate_with cpChecked fuel with
          | .built t3 =>
              match populate_with epChecked fuel with
              | .built t4 => some (t1, t2, t3, t4)
              | _ => none
          | _ => none
      | _ => none
  | _ => none

/-- `CoordCube` (the integer fields are named `coVal` … here because the
source field names coincide with the coordinate functions). -/
structure CoordCube where
  raw : Cube
  coVal : Nat
  eoVal : Nat
  cpVal : Nat
  epVal : Nat

/-- `From<Cube> for CoordCube`. -/
def CoordCube.fromCube (c : Cube) : CoordCube :=
  ⟨c, corner_orientation c, edge_orientation c, corner_position c, edge_position c⟩

/-- `CoordCube::apply`: force the transition tables (panic there is `none`),
then look every coordinate up (a missing entry is a panic, `none`). -/
def CoordCube.applyT (fuel : Nat) (cc : CoordCube) (m : Move) : Option CoordCube := do
  let tt ← TransitionTableInit fuel
  let co2 ← stGet tt.1 cc.coVal m
  let eo2 ← stGet tt.2.1 cc.eoVal m
  let cp2 ← stGet tt.2.2.1 cc.cpVal m
  let ep2 ← stGet tt.2.2.2 cc.epVal m
  pure ⟨cc.raw.apply m, co2, eo2, cp2, ep2⟩

/-- The `Challenge` built by `main.rs`: zero inspection time and the blast
machine evaluator. -/
def blastChallenge : Challenge := ⟨0, BlastMachineEvaluator⟩

/-- Shorthand moves for concrete statements. -/
def mU : Move := ⟨.Up, .Single⟩
def mR : Move := ⟨.Right, .Single⟩
def mF : Move := ⟨.Front, .Single⟩
def mL2 : Move := ⟨.Left, .Double⟩

/-- The canonical location stored at each `(surface, index)` position (the
inverse of the `Cube::get` index tables; every one of the 48 positions holds
exactly one canonical edge or corner sticker). -/
def invPos (s : Face) (i : Fin 8) : Location :=
  match s, i with
  | .Front, 0 => .Corner .Front .Left .Up
  | .Front, 1 => .Edge .Front .Up
  | .Front, 2 => .Corner .Front .Right .Up
  | .Front, 3 => .Edge .Front .Right
  | .Front, 4 => .Corner .Front .Right .Down
  | .Front, 5 => .Edge .Front .Down
  | .Front, 6 => .Corner .Front .Left .Down
  | .Front, 7 => .Edge .Front .Left
  | .Back, 0 => .Corner .Back .Right .Up
  | .Back, 1 => .Edge .Back .Up
  | .Back, 2 => .Corner .Back .Left .Up
  | .Back, 3 => .Edge .Back .Left
  | .Back, 4 => .Corner .Back .Left .Down
  | .Back, 5 => .Edge .Back .Down
  | .Back, 6 => .Corner .Back .Right .Down
  | .Back, 7 => .Edge .Back .Right
  | .Left, 0 => .Corner .Left .Back .Up
  | .Left, 1 => .Edge .Left .Up
  | .Left, 2 => .Corner .Left .Front .Up
  | .Left, 3 => .Edge .Left .Front
  | .Left, 4 => .Corner .Left .Front .Down
  | .Left, 5 => .Edge .Left .Down
  | .Left, 6 => .Corner .Left .Back .Down
  | .Left, 7 => .Edge .Left .Back
  | .Right, 0 => .Corner .Right .Front .Up
  | .Right, 1 => .Edge .Right .Up
  | .Right, 2 => .Corner .Right .Back .Up
  | .Right, 3 => .Edge .Right .Back
  | .Right, 4 => .Corner .Right .Back .Down
  | .Right, 5 => .Edge .Right .Down
  | .Right, 6 => .Corner .Right .Front .Down
  | .Right, 7 => .Edge .Right .Front
  | .Up, 0 => .Corner .Up .Back .Left
  | .Up, 1 => .Edge .Up .Back
  | .Up, 2 => .Corner .Up .Back .Right
  | .Up, 3 => .Edge .Up .Right
  | .Up, 4 => .Corner .Up .Front .Right
  | .Up, 5 => .Edge .Up .Front
  | .Up, 6 => .Corner .Up .Front .Left
  | .Up, 7 => .Edge .Up .Left
  | .Down, 0 => .Corner .Down .Front .Left
  | .Down, 1 => .Edge .Down .Front
  | .Down, 2 => .Corner .Down .Front .Right
  | .Down, 3 => .Edge .Down .Right
  | .Down, 4 => .Corner .Down .Back .Right
  | .Down, 5 => .Edge .Down .Back
  | .Down, 6 => .Corner .Down .Back .Left
  | .Down, 7 => .Edge .Down .Left

/-- The source location of the sticker that a move puts at `ℓ`:
`(c.apply m).get ℓ = c.get (sigmaMove m ℓ)`. -/
def sigmaMove (m : Move) (l : Location) : Location :=
  match locPos l with
  | none => l
  | some p => invPos (srcOf m p.1 p.2).1 (srcOf m p.1 p.2).2

/-- The per-location colour-class invariant of domino-reachable cubes:
up/down facelets of edges and corners carry up/down colours, the other
facelets of up/down-layer cubies carry side colours, and middle-layer edge
facelets carry colours of their own axis. -/
def classReq (l : Location) (x : Face) : Bool :=
  match l with
  | .Center _ => true
  | .Corner a _ _ => if a.isUD then x.isUD else !x.isUD
  | .Edge a b =>
      if a.isUD then x.isUD
      else if b.isUD then !x.isUD
      else
        match a.axis, x.axis with
        | .FB, .FB => true
        | .LR, .LR => true
        | _, _ => false

/-- The class invariant over all locations. -/
def WReq (c : Cube) : Bool :=
  Location.all.all fun l => classReq l (c.get l)

/-- The C8 counterexample cube: a cube reachable in twelve moves whose
corner and edge orientations are 0 (with the expected digit counts), but
which a single domino move takes out of that set. -/
def c8seq : List Move :=
  [⟨.Right, .Single⟩, ⟨.Down, .Single⟩, ⟨.Left, .Single⟩, ⟨.Down, .Single⟩,
   ⟨.Left, .Single⟩, ⟨.Down, .Single⟩, ⟨.Right, .Reverse⟩, ⟨.Front, .Double⟩,
   ⟨.Up, .Double⟩, ⟨.Down, .Single⟩, ⟨.Back, .Double⟩, ⟨.Down, .Reverse⟩]

/-- The pointwise test of the spec's first domino condition (modelled from
the spec's words, for comparison with `dominoOk`): a sticker lying on the Up
or Down surface of an edge or corner cubie must show an Up/Down colour. -/
def cond1Ok (l : Location) (x : Face) : Bool :=
  match l with
  | .Center _ => true
  | .Edge a _ => !a.isUD || x.isUD
  | .Corner a _ _ => !a.isUD || x.isUD

/-- The spec's first domino condition over all locations (modelled from the
spec's words). -/
def specUDFacelets (c : Cube) : Bool :=
  Location.all.all fun l => cond1Ok l (c.get l)

/-- The spec's second domino condition (modelled from the spec's words):
every sticker on a Left or Right surface that belongs to an edge cubie
carrying a Front/Back colour shows a Front/Back colour. -/
def specMiddleEdges (c : Cube) : Bool :=
  Location.all.all fun l =>
    match l with
    | .Edge a b =>
        if a = Face.Left ∨ a = Face.Right then
          if (c.get (.Edge a b)).axis = Axis.FB ∨ (c.get (.Edge b a)).axis = Axis.FB
          then decide ((c.get (.Edge a b)).axis = Axis.FB)
          else true
        else true
    | _ => true

/-- The solved cube with the Left-surface sticker of the front-left edge
(surface Left, index 3) recoloured Up: all Up/Down facelets still show
Up/Down colours, but a middle-layer edge sticker on a side surface does
not show a Front/Back colour. -/
def c5cube : Cube := fun f i =>
  if f = Face.Left ∧ i = (3 : Fin 8) then Face.Up else Cube.solved f i

/-! # Theorems -/

/-- The `last_move` state of `blastEvalFrom` after consuming `xs` starting
from state `l`. -/
def lastState (l : Option Move) (xs : List Move) : Option Move :=
  match xs.getLast? with
  | some y => some y
  | none => l

theorem lastState_nil (l : Option Move) : lastState l [] = l := rfl

theorem lastState_cons (l : Option Move) (x : Move) (xs : List Move) :
    lastState l (x :: xs) = lastState (some x) xs := by
  cases xs with
  | nil => rfl
  | cons y ys =>
      unfold lastState
      rw [List.getLast?_cons_cons]
      cases hg : (y :: ys).getLast? with
      | none => simp [List.getLast?_eq_none_iff] at hg
      | some z => rfl

theorem blastEvalFrom_append (l : Option Move) (xs ys : List Move) :
    blastEvalFrom l (xs ++ ys) =
      blastEvalFrom l xs + blastEvalFrom (lastState l xs) ys := by
  induction xs generalizing l with
  | nil => simp [blastEvalFrom, lastState]
  | cons x xs ih =>
      show blastCost l x + blastEvalFrom (some x) (xs ++ ys) = _
      rw [ih (some x), lastState_cons]
      show _ = blastCost l x + blastEvalFrom (some x) xs +
        blastEvalFrom (lastState (some x) xs) ys
      omega

theorem blastCost_le_base (l : Option Move) (m : Move) :
    blastCost l m ≤ blastCost none m := by
  cases l with
  | none => exact le_refl _
  | some x =>
      simp only [blastCost]
      by_cases h : Face.same_axis x.face m.face = true <;> simp [h]

theorem blastEvalFrom_le_none (l : Option Move) (ys : List Move) :
    blastEvalFrom l ys ≤ blastEvalFrom none ys := by
  cases ys with
  | nil => exact le_refl _
  | cons m rest =>
      simp only [blastEvalFrom]
      exact Nat.add_le_add_right (blastCost_le_base l m) _

theorem blastEvalFrom_dropLast_le (xs : List Move) (l : Option Move) :
    blastEvalFrom l xs.dropLast ≤ blastEvalFrom l xs := by
  induction xs generalizing l with
  | nil => exact le_refl _
  | cons x xs ih =>
      cases xs with
      | nil => simp [blastEvalFrom]
      | cons y ys =>
          simp only [List.dropLast_cons₂, blastEvalFrom]
          exact Nat.add_le_add_left (ih (some x)) _

theorem base_le_blastCost_none (m : Move) : millis 10 ≤ blastCost none m := by
  simp only [blastCost]
  by_cases h : m.direction = Direction.Double <;> simp [h, millis]

theorem head_le_blastEval (xs : List Move) (h : xs ≠ []) :
    millis 10 ≤ blastEval xs := by
  cases xs with
  | nil => exact absurd rfl h
  | cons m rest =>
      calc millis 10 ≤ blastCost none m := base_le_blastCost_none m
      _ ≤ blastCost none m + blastEvalFrom (some m) rest := Nat.le_add_right _ _
      _ = blastEval (m :: rest) := rfl

/-- Super-additivity in the achievable direction: concatenating can only
make the second part cheaper (its first move may share an axis with the
first part's last move). -/
theorem blastEval_append_le (a b : List Move) :
    blastEval (a ++ b) ≤ blastEval a + blastEval b := by
  simp only [blastEval, blastEvalFrom_append none a b]
  exact Nat.add_le_add_left (blastEvalFrom_le_none _ b) _

/-- C3: the blast-machine evaluator violates the documented inequality
`eval(a) + eval(b) ≤ eval(a ++ b)` (the comment on the `Evaluator` trait in
`src/challenge.rs`): at `a = b = [R]` the left side is 20 ms and the right
side 10 ms, because the second `R` shares its axis with the first and is
charged nothing. -/
theorem C3_blast_subadditivity_fails :
    BlastMachineEvaluator.eval [mR] + BlastMachineEvaluator.eval [mR] = millis 20 ∧
    BlastMachineEvaluator.eval ([mR] ++ [mR]) = millis 10 ∧
    ¬ (BlastMachineEvaluator.eval [mR] + BlastMachineEvaluator.eval [mR] ≤
        BlastMachineEvaluator.eval ([mR] ++ [mR])) := by
  refine ⟨by decide, by decide, by decide⟩

/-- C6 (counterexample): `min_time(seq) ≤ eval(s')` fails for
`seq = s' = [R, L2, R]` (a sequence that contains itself as a contiguous
substring and as a suffix): `min_time` charges the interior `[L2]` its full
14 ms, but in context `L2` and the final `R` both share an axis with their
predecessors, so the whole sequence evaluates to 10 ms. -/
theorem C6_min_time_counterexample :
    BlastMachineEvaluator.min_time [mR, mL2, mR] = millis 14 ∧
    BlastMachineEvaluator.eval ([] ++ [mR, mL2, mR] ++ []) = millis 10 ∧
    ¬ (BlastMachineEvaluator.min_time [mR, mL2, mR] ≤
        BlastMachineEvaluator.eval ([] ++ [mR, mL2, mR] ++ [])) := by
  refine ⟨by decide, by decide, by decide⟩

/-- C6 (amended): `min_time(seq)` is a lower bound on `eval(s')` for every
`s'` containing `seq` as a contiguous substring (suffixes included),
provided the second move of `seq` is not a double turn on the same axis as
the first move of `seq` (the counterexample shows the bound fails without
this proviso: such a double is charged 14 ms by `min_time` but is free in
any containing sequence, and the containing sequence's obligatory first-move
cost only covers 10 ms of that). -/
theorem C6_min_time_lower_bound (seq pre post : List Move)
    (h : (match seq with
          | a :: b :: _ =>
              !(Face.same_axis a.face b.face && b.direction == Direction.Double)
          | _ => true) = true) :
    BlastMachineEvaluator.min_time seq ≤
      BlastMachineEvaluator.eval (pre ++ seq ++ post) := by
  match seq with
  | [] => exact Nat.zero_le _
  | [a] => exact Nat.zero_le _
  | a :: b :: t =>
      show blastMinTime (a :: b :: t) ≤ blastEval (pre ++ (a :: b :: t) ++ post)
      have hexp : blastEval (pre ++ (a :: b :: t) ++ post) =
          blastEval pre + (blastCost (lastState none pre) a +
            (blastCost (some a) b +
              (blastEvalFrom (some b) t +
                blastEvalFrom (lastState (some b) t) post))) := by
        simp only [blastEval]
        rw [List.append_assoc]
        rw [blastEvalFrom_append none pre,
          blastEvalFrom_append (lastState none pre) (a :: b :: t) post,
          lastState_cons, lastState_cons]
        show blastEvalFrom none pre +
          ((blastCost (lastState none pre) a +
            (blastCost (some a) b + blastEvalFrom (some b) t)) +
            blastEvalFrom (lastState (some b) t) post) =
          blastEvalFrom none pre + (blastCost (lastState none pre) a +
            (blastCost (some a) b +
              (blastEvalFrom (some b) t +
                blastEvalFrom (lastState (some b) t) post)))
        omega
      have hmt : blastMinTime (a :: b :: t) ≤
          blastCost none b + blastEvalFrom (some b) t := by
        show blastEval ((b :: t).dropLast) ≤ _
        cases t with
        | nil => exact Nat.zero_le _
        | cons y ys =>
            simp only [List.dropLast_cons₂, blastEval, blastEvalFrom]
            exact Nat.add_le_add_left (blastEvalFrom_dropLast_le (y :: ys) (some b)) _
      have hkey : blastCost none b ≤
          blastEval pre + blastCost (lastState none pre) a + blastCost (some a) b := by
        by_cases hax : Face.same_axis a.face b.face = true
        · have hnd : ¬ b.direction = Direction.Double := by
            simp only [hax] at h
            simpa using h
          have hb : blastCost none b = millis 10 := by
            simp [blastCost, hnd]
          rw [hb]
          cases hp : pre with
          | nil =>
              have : millis 10 ≤ blastCost (lastState none []) a := by
                simpa [lastState] using base_le_blastCost_none a
              omega
          | cons p ps =>
              have : millis 10 ≤ blastEval (p :: ps) :=
                head_le_blastEval _ (by simp)
              omega
        · have : blastCost (some a) b = blastCost none b := by
            simp [blastCost, hax]
          omega
      calc blastMinTime (a :: b :: t)
          ≤ blastCost none b + blastEvalFrom (some b) t := hmt
        _ ≤ blastEval pre + blastCost (lastState none pre) a +
              blastCost (some a) b + blastEvalFrom (some b) t := by omega
        _ ≤ blastEval (pre ++ (a :: b :: t) ++ post) := by rw [hexp]; omega

/-- Witness for `C6_min_time_lower_bound` at `seq = [U, R, F]`,
`pre = post = []`. -/
theorem C6_min_time_lower_bound_witness :
    ((match [mU, mR, mF] with
      | a :: b :: _ =>
          !(Face.same_axis a.face b.face && b.direction == Direction.Double)
      | _ => true) = true) ∧
    BlastMachineEvaluator.min_time [mU, mR, mF] ≤
      BlastMachineEvaluator.eval ([] ++ [mU, mR, mF] ++ []) :=
  ⟨by decide, C6_min_time_lower_bound [mU, mR, mF] [] [] (by decide)⟩

/-- C10: an evaluator supplied as a plain cost closure (the blanket
`impl Evaluator for F` in `src/challenge.rs`) has `min_time(seq) =
eval(seq) = f(seq)` — the blanket impl overrides the trait's zero default
and does not discard the boundary moves: with the uniform
10 ms-per-move closure used by the repository's tests, `min_time([R, L2, R])`
is 30 ms, not the default 0 and not the 10 ms that evaluating the interior
`[L2]` would give. -/
theorem C10_closure_evaluator_min_time :
    (∀ (f : List Move → Nat) (seq : List Move),
      (Evaluator.ofFn f).min_time seq = (Evaluator.ofFn f).eval seq ∧
      (Evaluator.ofFn f).eval seq = f seq) ∧
    ((Evaluator.ofFn fun s => millis 10 * s.length).min_time [mR, mL2, mR]
        = millis 30 ∧
      ¬ ((Evaluator.ofFn fun s => millis 10 * s.length).min_time [mR, mL2, mR] = 0) ∧
      ¬ ((Evaluator.ofFn fun s => millis 10 * s.length).min_time [mR, mL2, mR] =
          (Evaluator.ofFn fun s => millis 10 * s.length).eval [mL2])) :=
  ⟨fun _ _ => ⟨rfl, rfl⟩, by decide, by decide, by decide⟩

/-- C9 (counterexample): `Move::from_str` does not reject trailing
characters: `"U2x"` parses successfully as the double turn of Up, where the
claim requires a parse error. -/
theorem C9_from_str_counterexample :
    Move.from_str ['U', '2', 'x'] = .ok ⟨.Up, .Double⟩ := rfl

/-- C9 (amended): `Move::from_str` succeeds exactly on the strings whose
first character is a face letter (either case) and whose second character,
if present, is `'` or `2`; all characters beyond the second are ignored
rather than rejected. -/
theorem C9_from_str_characterization (s : List Char) :
    (∃ m, Move.from_str s = .ok m) ↔
      (match s with
       | [] => False
       | fc :: rest =>
           (faceOfChar fc).isSome ∧
           (match rest with
            | [] => True
            | dc :: _ => dc = tickChar ∨ dc = '2')) := by
  match s with
  | [] => simp [Move.from_str]
  | fc :: rest =>
      cases hf : faceOfChar fc with
      | none => simp [Move.from_str, hf]
      | some face =>
          match rest with
          | [] => simp [Move.from_str, hf]
          | dc :: rest2 =>
              by_cases ht : dc = tickChar
              · simp [Move.from_str, hf, ht]
              · by_cases h2 : dc = '2'
                · subst h2
                  simp [Move.from_str, hf, ht]
                · simp [Move.from_str, hf, ht, h2]

/-- C4 (counterexample): the `post_domino` phase is constructed with an
empty heuristic vector (`Phase::init(moves, |c| *c == Cube::solved(),
vec![])` in `Kociemba::init`) — it carries no corner_position pattern
database at all. -/
theorem C4_post_domino_no_heuristics :
    (Kociemba.init blastChallenge).post_domino.heuristics = [] := rfl

/-- C4 (amended): for every challenge, the post-domino phase's heuristic
set is empty and its `min_time` is constantly zero
(`max().unwrap_or_default()` over no heuristics). -/
theorem C4_post_domino_min_time_zero (ch : Challenge) (c : Cube) :
    (Kociemba.init ch).post_domino.heuristics = [] ∧
    (Kociemba.init ch).post_domino.min_time c = 0 :=
  ⟨rfl, rfl⟩

/-! ### Search bounds (C7) -/

/-- The bound invariant of a search result: a `NotFound` bound strictly
exceeds the budget, a `Found` sequence costs at most the budget. -/
def SearchOK (E : Evaluator) (mt : Nat) : Search → Prop
  | .NotFound t => mt < t
  | .Found seq => E.eval seq ≤ mt

theorem combineSearch_ok {E mt} {a b : Search} (ha : SearchOK E mt a)
    (hb : SearchOK E mt b) : SearchOK E mt (combineSearch E a b) := by
  cases a with
  | NotFound x =>
      cases b with
      | NotFound y => exact Nat.lt_min.mpr ⟨ha, hb⟩
      | Found s => exact hb
  | Found s =>
      cases b with
      | NotFound y => exact ha
      | Found s2 =>
          simp only [combineSearch]
          split
          · exact ha
          · exact hb

theorem fsFold_ok {E mt} {child : Cube → List Move → Option Search}
    {cube stack}
    (hchild : ∀ cube2 stack2 res,
      child cube2 stack2 = some res → SearchOK E mt res) :
    ∀ (ms : List Move) (best res : Search), SearchOK E mt best →
      fsFold E child cube stack ms best = some res → SearchOK E mt res := by
  intro ms
  induction ms with
  | nil =>
      intro best res hb h
      rw [fsFold] at h
      cases h
      exact hb
  | cons mv rest ih =>
      intro best res hb h
      rw [fsFold] at h
      cases hf : child (cube.apply mv) (stack ++ [mv]) with
      | none => rw [hf] at h; cases h
      | some sub =>
          rw [hf] at h
          exact ih _ res (combineSearch_ok hb (hchild _ _ _ hf)) h

theorem find_solution_ok (E : Evaluator) :
    ∀ (fuel mt : Nat) (cube : Cube) (stack : List Move) (ph : Phase)
      (res : Search), mt < DurationMAX →
      find_solution E fuel mt cube stack ph = some res → SearchOK E mt res := by
  intro fuel
  induction fuel with
  | zero =>
      intro mt cube stack ph res hmt h
      rw [find_solution] at h
      cases h
  | succ fuel ih =>
      intro mt cube stack ph res hmt h
      rw [find_solution] at h
      by_cases h1 : mt < E.eval stack + ph.min_time cube
      · rw [if_pos h1] at h
        cases h
        exact h1
      · rw [if_neg h1] at h
        by_cases h2 : ph.is_finished cube = true
        · rw [if_pos h2] at h
          cases h
          show E.eval stack ≤ mt
          have : E.eval stack ≤ E.eval stack + ph.min_time cube := Nat.le_add_right _ _
          omega
        · rw [if_neg h2] at h
          exact fsFold_ok (fun cube2 stack2 res2 hr => ih mt cube2 stack2 ph res2 hmt hr)
            _ _ res (show SearchOK E mt (.NotFound DurationMAX) from hmt) h

/-- C7: when `find_solution` returns `NotFound(t)` under a budget below
`Duration::MAX`, the bound `t` strictly exceeds the budget — so
`solve_to`'s `best_time` strictly increases on every unproductive outer
pass — and a `Found` sequence costs at most the budget, so on the final
iteration the returned sequence has `evaluator.eval ≤ best_time`. -/
theorem C7_search_bound_strict :
    (∀ (E : Evaluator) (fuel mt : Nat) (cube : Cube) (stack : List Move)
      (ph : Phase) (t : Nat), mt < DurationMAX →
      find_solution E fuel mt cube stack ph = some (.NotFound t) → mt < t) ∧
    (∀ (E : Evaluator) (fuel mt : Nat) (cube : Cube) (stack : List Move)
      (ph : Phase) (seq : List Move), mt < DurationMAX →
      find_solution E fuel mt cube stack ph = some (.Found seq) →
        E.eval seq ≤ mt) :=
  ⟨fun E fuel mt cube stack ph t hmt h =>
      find_solution_ok E fuel mt cube stack ph (.NotFound t) hmt h,
   fun E fuel mt cube stack ph seq hmt h =>
      find_solution_ok E fuel mt cube stack ph (.Found seq) hmt h⟩

/-- The empty phase used to witness the search-level theorems: no allowed
moves and an unsatisfiable goal. -/
def emptyPhase : Phase := Phase.init [] (fun _ => false) []

/-- The trivial phase used to witness the solver-level theorems: no allowed
moves, goal "the cube is solved", no heuristics. -/
def solvedPhase : Phase := Phase.init [] (fun c => decide (c = Cube.solved)) []

/-- Witness for `C7_search_bound_strict`: with the blast machine evaluator,
budget 0 and the empty phase, the search returns `NotFound(Duration::MAX)`
and `0 < Duration::MAX`; with the solved goal on the solved cube it returns
`Found([])` of cost 0. -/
theorem C7_search_bound_strict_witness :
    ((0 : Nat) < DurationMAX ∧
      find_solution BlastMachineEvaluator 1 0 Cube.solved [] emptyPhase =
        some (.NotFound DurationMAX) ∧
      (0 : Nat) < DurationMAX) ∧
    (find_solution BlastMachineEvaluator 1 0 Cube.solved [] solvedPhase =
        some (.Found []) ∧
      BlastMachineEvaluator.eval [] ≤ 0) := by
  refine ⟨⟨by decide, by decide, ?_⟩, by decide, ?_⟩
  · exact C7_search_bound_strict.1 BlastMachineEvaluator 1 0 Cube.solved []
      emptyPhase DurationMAX (by decide) (by decide)
  · exact C7_search_bound_strict.2 BlastMachineEvaluator 1 0 Cube.solved []
      solvedPhase [] (by decide) (by decide)

/-! ### Solver correctness (C1) -/

/-- The found-structure invariant: any `Found` result of a node extends the
node's move stack, and applying the extension to the node's cube reaches
the phase goal. -/
def FoundOK (cube : Cube) (stack : List Move) (ph : Phase) : Search → Prop
  | .Found seq => ∃ ext, seq = stack ++ ext ∧
      ph.is_finished (cube.apply_all ext) = true
  | .NotFound _ => True

theorem combineSearch_found {E} {a b : Search} {seq : List Move}
    (h : combineSearch E a b = .Found seq) : a = .Found seq ∨ b = .Found seq := by
  cases a with
  | NotFound x =>
      cases b with
      | NotFound y => simp [combineSearch] at h
      | Found s => right; cases h; rfl
  | Found s =>
      cases b with
      | NotFound y => left; cases h; rfl
      | Found s2 =>
          simp only [combineSearch] at h
          split at h
          · left; exact h
          · right; exact h

theorem FoundOK_child {cube : Cube} {stack : List Move} {ph : Phase}
    (mv : Move) {res : Search}
    (h : FoundOK (cube.apply mv) (stack ++ [mv]) ph res) :
    FoundOK cube stack ph res := by
  cases res with
  | NotFound t => trivial
  | Found seq =>
      obtain ⟨ext, hseq, hfin⟩ := h
      refine ⟨mv :: ext, ?_, hfin⟩
      rw [hseq, List.append_assoc]
      rfl

theorem fsFold_found {E} {child : Cube → List Move → Option Search}
    {cube stack ph}
    (hchild : ∀ mv res, child (cube.apply mv) (stack ++ [mv])
      = some res → FoundOK (cube.apply mv) (stack ++ [mv]) ph res) :
    ∀ (ms : List Move) (best res : Search), FoundOK cube stack ph best →
      fsFold E child cube stack ms best = some res →
      FoundOK cube stack ph res := by
  intro ms
  induction ms with
  | nil =>
      intro best res hb h
      rw [fsFold] at h
      cases h
      exact hb
  | cons mv rest ih =>
      intro best res hb h
      rw [fsFold] at h
      cases hf : child (cube.apply mv) (stack ++ [mv]) with
      | none => rw [hf] at h; cases h
      | some sub =>
          rw [hf] at h
          refine ih _ res ?_ h
          have hsub := FoundOK_child mv (hchild mv sub hf)
          cases hc : combineSearch E best sub with
          | NotFound t => trivial
          | Found seq =>
              rcases combineSearch_found hc with hbf | hsf
              · rw [hbf] at hb; exact hb
              · rw [hsf] at hsub
                exact hsub

theorem find_solution_found (E : Evaluator) :
    ∀ (fuel mt : Nat) (cube : Cube) (stack : List Move) (ph : Phase)
      (res : Search),
      find_solution E fuel mt cube stack ph = some res →
      FoundOK cube stack ph res := by
  intro fuel
  induction fuel with
  | zero =>
      intro mt cube stack ph res h
      rw [find_solution] at h
      cases h
  | succ fuel ih =>
      intro mt cube stack ph res h
      rw [find_solution] at h
      by_cases h1 : mt < E.eval stack + ph.min_time cube
      · rw [if_pos h1] at h
        cases h
        trivial
      · rw [if_neg h1] at h
        by_cases h2 : ph.is_finished cube = true
        · rw [if_pos h2] at h
          cases h
          exact ⟨[], by simp, h2⟩
        · rw [if_neg h2] at h
          exact fsFold_found
            (fun mv res2 hr => ih mt (cube.apply mv) (stack ++ [mv]) ph res2 hr)
            _ (.NotFound DurationMAX) res
            (show FoundOK cube stack ph (.NotFound DurationMAX) from trivial) h

theorem solve_to_loop_found (E : Evaluator) (fuel : Nat) (cube : Cube)
    (pre : List Move) (ph : Phase) :
    ∀ (iters best : Nat) (seq : List Move),
      solve_to_loop E iters fuel cube pre ph best = some seq →
      ∃ ext, seq = pre ++ ext ∧ ph.is_finished (cube.apply_all ext) = true := by
  intro iters
  induction iters with
  | zero =>
      intro best seq h
      rw [solve_to_loop] at h
      cases h
  | succ iters ih =>
      intro best seq h
      rw [solve_to_loop] at h
      cases hf : find_solution E fuel best cube pre ph with
      | none => rw [hf] at h; cases h
      | some res =>
          rw [hf] at h
          cases res with
          | Found moves =>
              cases h
              exact find_solution_found E fuel best cube pre ph _ hf
          | NotFound nb => exact ih nb seq h

/-- `apply_all` distributes over `++`. -/
theorem Cube.apply_all_append (c : Cube) (xs ys : List Move) :
    c.apply_all (xs ++ ys) = (c.apply_all xs).apply_all ys := by
  unfold Cube.apply_all
  exact List.foldl_append _ _ _ _

/-- C1 (part one, `solve_to`): any sequence returned by `solve_to` extends
the prefix and, applied to the input cube, satisfies the phase's
`is_finished` predicate. -/
theorem solve_to_found (E : Evaluator) (iters fuel : Nat) (cube : Cube)
    (ph : Phase) (pre seq : List Move)
    (h : solve_to E iters fuel cube ph pre = some seq) :
    (∃ ext, seq = pre ++ ext) ∧
      ph.is_finished (cube.apply_all seq) = true := by
  obtain ⟨ext, hseq, hfin⟩ :=
    solve_to_loop_found E fuel (cube.apply_all pre) pre ph iters
      (E.eval pre) seq h
  refine ⟨⟨ext, hseq⟩, ?_⟩
  rw [hseq, Cube.apply_all_append]
  exact hfin

/-- C1: (1) `solve_to(cube, phase, prefix)` returns a sequence extending
`prefix` whose application to the input cube satisfies the phase's
`is_finished`; (2) the chained two-phase worker of `Kociemba::solve`
(to-domino prefix followed by the remainder of the post-domino result)
therefore solves the cube whenever the second phase's goal is "equals the
solved cube"; (3) the post-domino phase built by `Kociemba::init` has
exactly that goal. -/
theorem C1_solver_correctness :
    (∀ (E : Evaluator) (iters fuel : Nat) (cube : Cube) (ph : Phase)
        (pre seq : List Move),
        solve_to E iters fuel cube ph pre = some seq →
        (∃ ext, seq = pre ++ ext) ∧
          ph.is_finished (cube.apply_all seq) = true) ∧
    (∀ (E : Evaluator) (i1 f1 i2 f2 : Nat) (cube : Cube) (ph1 ph2 : Phase)
        (ms : List Move),
        (∀ c, ph2.finished_when c = decide (c = Cube.solved)) →
        worker E i1 f1 i2 f2 cube ph1 ph2 = some ms →
        cube.apply_all ms = Cube.solved) ∧
    (∀ ch : Challenge,
      (Kociemba.init ch).post_domino.finished_when =
        fun c => decide (c = Cube.solved)) := by
  refine ⟨solve_to_found, ?_, fun _ => rfl⟩
  intro E i1 f1 i2 f2 cube ph1 ph2 ms h2 hw
  unfold worker at hw
  cases hp1 : solve_to E i1 f1 cube ph1 [] with
  | none => rw [hp1] at hw; cases hw
  | some p1 =>
      rw [hp1] at hw
      simp only at hw
      cases hp2 : solve_to E i2 f2 cube ph2 p1 with
      | none => rw [hp2] at hw; cases hw
      | some sol =>
          rw [hp2] at hw
          simp only at hw
          cases hw
          obtain ⟨⟨ext, hseq⟩, hfin⟩ :=
            solve_to_found E i2 f2 cube ph2 p1 sol hp2
          have hdrop : p1 ++ sol.drop p1.length = sol := by
            rw [hseq, List.drop_left]
          rw [hdrop]
          have := hfin
          rw [Phase.is_finished, h2] at this
          exact of_decide_eq_true this

/-- Witness for `C1_solver_correctness`: with no allowed moves, goal
"solved", starting from the solved cube, both `solve_to` and the worker
return the empty solution. -/
theorem C1_solver_correctness_witness :
    (solve_to BlastMachineEvaluator 1 1 Cube.solved solvedPhase [] = some [] ∧
      (∃ ext, ([] : List Move) = [] ++ ext) ∧
      solvedPhase.is_finished (Cube.solved.apply_all []) = true) ∧
    ((∀ c, solvedPhase.finished_when c = decide (c = Cube.solved)) ∧
      worker BlastMachineEvaluator 1 1 1 1 Cube.solved solvedPhase solvedPhase
        = some [] ∧
      Cube.solved.apply_all [] = Cube.solved) := by
  refine ⟨⟨by decide, ?_, ?_⟩, fun _ => rfl, by decide, ?_⟩
  · exact (C1_solver_correctness.1 BlastMachineEvaluator 1 1 Cube.solved
      solvedPhase [] [] (by decide)).1
  · exact (C1_solver_correctness.1 BlastMachineEvaluator 1 1 Cube.solved
      solvedPhase [] [] (by decide)).2
  · exact C1_solver_correctness.2.1 BlastMachineEvaluator 1 1 1 1 Cube.solved
      solvedPhase solvedPhase [] (fun _ => rfl) (by decide)

/-! ## Transport of `get` along `apply`, and the domino class invariant -/

/-- Each of the 48 non-centre positions stores exactly its canonical
location. -/
lemma locPos_invPos : ∀ (s : Face) (i : Fin 8), locPos (invPos s i) = some (s, i) := by
  decide

lemma get_invPos (c : Cube) (s : Face) (i : Fin 8) : c.get (invPos s i) = c s i := by
  simp only [Cube.get, locPos_invPos]

lemma get_apply_pos (c : Cube) (m : Move) (l : Location) (s : Face) (i : Fin 8)
    (h : locPos l = some (s, i)) :
    (c.apply m).get l = c.get (sigmaMove m l) := by
  have hr : sigmaMove m l = invPos (srcOf m s i).1 (srcOf m s i).2 := by
    simp only [sigmaMove, h]
  rw [hr, get_invPos]
  simp only [Cube.get, h]
  rfl

/-- A move reads the sticker at `sigmaMove m l` into location `l`. -/
lemma get_apply (c : Cube) (m : Move) (l : Location) :
    (c.apply m).get l = c.get (sigmaMove m l) := by
  match l with
  | .Center f => rfl
  | .Edge a b => exact get_apply_pos c m _ a _ rfl
  | .Corner a b d => exact get_apply_pos c m _ a _ rfl

lemma sigma_mem : ∀ (m : Move), ∀ l ∈ Location.all, sigmaMove m l ∈ Location.all := by
  decide

lemma class_transport :
    ∀ (m : Move), is_domino_move m = true →
      ∀ l ∈ Location.all, ∀ x : Face,
        classReq (sigmaMove m l) x = true → classReq l x = true := by
  decide

lemma WReq_solved : WReq Cube.solved = true := by decide

lemma WReq_apply (c : Cube) (m : Move) (hm : is_domino_move m = true)
    (hw : WReq c = true) : WReq (c.apply m) = true := by
  simp only [WReq, List.all_eq_true] at hw ⊢
  intro l hl
  rw [get_apply]
  exact class_transport m hm l hl _ (hw _ (sigma_mem m l hl))

lemma WReq_apply_all :
    ∀ (ms : List Move) (c : Cube), WReq c = true →
      (∀ m ∈ ms, is_domino_move m = true) → WReq (c.apply_all ms) = true := by
  intro ms
  induction ms with
  | nil => intro c hw _; exact hw
  | cons m ms ih =>
      intro c hw hms
      show WReq ((c.apply m).apply_all ms) = true
      exact ih _ (WReq_apply c m (hms m (List.mem_cons_self m ms)) hw)
        (fun m2 hm2 => hms m2 (List.mem_cons_of_mem m hm2))

/-- A fold whose step maps the zero accumulator to zero at every list entry
stays at zero. -/
lemma foldl_zero {α : Type} (g : Nat → α → Nat) :
    ∀ (L : List α), (∀ a ∈ L, g 0 a = 0) → L.foldl g 0 = 0 := by
  intro L
  induction L with
  | nil => intro _; rfl
  | cons a L ih =>
      intro h
      rw [List.foldl_cons, h a (List.mem_cons_self a L)]
      exact ih (fun a2 ha2 => h a2 (List.mem_cons_of_mem a ha2))

lemma co_digit_class :
    ∀ l ∈ Location.all, ∀ x : Face, classReq l x = true →
      (coDigitF l x = none ∨ coDigitF l x = some 0) := by
  decide

lemma co_zero_of_W (c : Cube) (hw : WReq c = true) : corner_orientation c = 0 := by
  simp only [WReq, List.all_eq_true] at hw
  unfold corner_orientation
  refine foldl_zero _ Location.all (fun l hl => ?_)
  rcases co_digit_class l hl (c.get l) (hw l hl) with h | h <;> simp [h]

lemma eoPairs_mem :
    ∀ p ∈ eoPairs, (Location.Edge p.1 p.2) ∈ Location.all ∧
      (Location.Edge p.2 p.1) ∈ Location.all := by
  decide

lemma eo_digit_class :
    ∀ p ∈ eoPairs, ∀ x y : Face,
      classReq (.Edge p.1 p.2) x = true → classReq (.Edge p.2 p.1) y = true →
      (eoDigitF x y p.1 p.2 = none ∨ eoDigitF x y p.1 p.2 = some true) := by
  decide

lemma eo_zero_of_W (c : Cube) (hw : WReq c = true) : edge_orientation c = 0 := by
  simp only [WReq, List.all_eq_true] at hw
  unfold edge_orientation
  refine foldl_zero _ eoPairs (fun p hp => ?_)
  rcases eo_digit_class p hp (c.get (.Edge p.1 p.2)) (c.get (.Edge p.2 p.1))
      (hw _ (eoPairs_mem p hp).1) (hw _ (eoPairs_mem p hp).2) with h | h <;>
    simp [h]

lemma domino_of_W :
    ∀ l ∈ Location.all, ∀ x : Face, classReq l x = true → dominoOk l x = true := by
  decide

lemma is_domino_of_W (c : Cube) (hw : WReq c = true) :
    is_domino_cube c = true := by
  simp only [WReq, List.all_eq_true] at hw
  simp only [is_domino_cube, List.all_eq_true]
  intro l hl
  exact domino_of_W l hl _ (hw l hl)

lemma domino_transport :
    ∀ (m : Move), is_domino_move m = true →
      ∀ l ∈ Location.all, ∀ x : Face,
        dominoOk (sigmaMove m l) x = true → dominoOk l x = true := by
  decide

lemma is_domino_apply (c : Cube) (m : Move) (hm : is_domino_move m = true)
    (hd : is_domino_cube c = true) : is_domino_cube (c.apply m) = true := by
  simp only [is_domino_cube, List.all_eq_true] at hd ⊢
  intro l hl
  rw [get_apply]
  exact domino_transport m hm l hl _ (hd _ (sigma_mem m l hl))

/-- **C8** counterexample: the cube reached from solved by the twelve-move
sequence `c8seq` has `corner_orientation` 0 and `edge_orientation` 0, yet the
domino move B2 takes its `corner_orientation` to 18, not 0.  The first half
of the claim (orientation-zero cubes stay orientation-zero under domino
moves) is false for the code as written. -/
theorem C8_orientation_counterexample :
    corner_orientation (Cube.solved.apply_all c8seq) = 0 ∧
    edge_orientation (Cube.solved.apply_all c8seq) = 0 ∧
    is_domino_move ⟨.Back, .Double⟩ = true ∧
    corner_orientation ((Cube.solved.apply_all c8seq).apply ⟨.Back, .Double⟩)
      = 18 := by
  decide

/-- **C8** (amended): (a) every cube reached from the solved cube by a
sequence of domino moves has `corner_orientation` 0, `edge_orientation` 0
and satisfies `is_domino_cube`; (b) for every cube (not just reachable
ones), a domino move preserves `is_domino_cube`.  The orientation-zero
invariant of the claim holds on the domino-reachable class but not for an
arbitrary cube with zero orientations (see the counterexample). -/
theorem C8_domino_invariants :
    (∀ ms : List Move, (∀ m ∈ ms, is_domino_move m = true) →
      corner_orientation (Cube.solved.apply_all ms) = 0 ∧
      edge_orientation (Cube.solved.apply_all ms) = 0 ∧
      is_domino_cube (Cube.solved.apply_all ms) = true) ∧
    (∀ (c : Cube) (m : Move), is_domino_move m = true →
      is_domino_cube c = true → is_domino_cube (c.apply m) = true) := by
  constructor
  · intro ms hms
    have hw := WReq_apply_all ms Cube.solved WReq_solved hms
    exact ⟨co_zero_of_W _ hw, eo_zero_of_W _ hw, is_domino_of_W _ hw⟩
  · exact fun c m hm hd => is_domino_apply c m hm hd

/-- Witness for `C8_domino_invariants` at the one-move sequence [U] and at
the solved cube with the move U. -/
theorem C8_domino_invariants_witness :
    (corner_orientation (Cube.solved.apply_all [mU]) = 0 ∧
      edge_orientation (Cube.solved.apply_all [mU]) = 0 ∧
      is_domino_cube (Cube.solved.apply_all [mU]) = true) ∧
    is_domino_cube (Cube.solved.apply mU) = true :=
  ⟨C8_domino_invariants.1 [mU] (by decide),
   C8_domino_invariants.2 Cube.solved mU (by decide) (by decide)⟩

lemma all_congr_on {α : Type} (L : List α) (f g : α → Bool)
    (h : ∀ a ∈ L, f a = g a) : L.all f = L.all g := by
  induction L with
  | nil => rfl
  | cons a L ih =>
      rw [List.all_cons, List.all_cons, h a (List.mem_cons_self a L),
        ih (fun a2 ha2 => h a2 (List.mem_cons_of_mem a ha2))]

lemma dominoOk_eq_cond1 :
    ∀ l ∈ Location.all, ∀ x : Face, dominoOk l x = cond1Ok l x := by
  decide

/-- **C5**: the claimed characterization of `is_domino_cube` is wrong about
the middle-edge condition.  On every cube, `is_domino_cube` agrees with the
first condition alone (Up/Down facelets of edge and corner cubies show
Up/Down colours); the cube `c5cube` satisfies the first condition, violates
the second (its front-left edge sticker on the Left surface shows Up), and
is still accepted by `is_domino_cube`: the source's match arm for middle
edges is fully shadowed by the catch-all arms that follow it. -/
theorem C5_domino_characterization_bug :
    (∀ c : Cube, is_domino_cube c = specUDFacelets c) ∧
    specUDFacelets c5cube = true ∧
    specMiddleEdges c5cube = false ∧
    is_domino_cube c5cube = true := by
  refine ⟨fun c => ?_, by decide, by decide, by decide⟩
  unfold is_domino_cube specUDFacelets
  exact all_congr_on Location.all _ _
    (fun l hl => dominoOk_eq_cond1 l hl (c.get l))

lemma populateLoop_panic_mono (f : Cube → Option Nat) :
    ∀ (n m : Nat) (t : SingleTable) (q : List (Nat × Cube)),
      populateLoop f n t q = .panicked →
      populateLoop f (n + m) t q = .panicked := by
  intro n
  induction n with
  | zero =>
      intro m t q h
      simp [populateLoop] at h
  | succ n ih =>
      intro m t q h
      have hrw : n + 1 + m = (n + m) + 1 := by omega
      rw [hrw]
      rw [populateLoop] at h ⊢
      revert h
      cases popMin q with
      | none => intro h; simp at h
      | some p =>
          obtain ⟨e, q2⟩ := p
          show ((if hasOutgoing t e.1 = true then BuildResult.panicked
              else match populateMoves f e.1 e.2 Move.all t q2 with
                | none => BuildResult.panicked
                | some r => populateLoop f n r.1 r.2)
              = BuildResult.panicked) →
            ((if hasOutgoing t e.1 = true then BuildResult.panicked
              else match populateMoves f e.1 e.2 Move.all t q2 with
                | none => BuildResult.panicked
                | some r => populateLoop f (n + m) r.1 r.2)
              = BuildResult.panicked)
          cases ho : hasOutgoing t e.1 with
          | true => intro _; rw [if_pos rfl]
          | false =>
              rw [if_neg (by simp), if_neg (by simp)]
              cases populateMoves f e.1 e.2 Move.all t q2 with
              | none => intro _; rfl
              | some r => intro h; exact ih m r.1 r.2 h

lemma coChecked_solved : coChecked Cube.solved = some 0 := by decide

lemma buildCO_two_panics :
    populateLoop coChecked 2 [] [(0, Cube.solved)] = .panicked := by
  decide

/-- **C2**: the transition tables are never coherently built.  Because
`Surface::rotate` turns a face's own stickers opposite to the way it cycles
the adjacent slices, `corner_orientation`'s `assert_eq!(count, 7)` fails on
cubes two moves from solved, so the breadth-first construction in
`SingleTable::populate_with` panics on its second dequeue (at any fuel of at
least 2, i.e. it is a true panic and not fuel exhaustion), and consequently
`CoordCube::apply` — which forces the lazy `TransitionTable::init` — panics
(`none`) for every `CoordCube` and every move. -/
theorem C2_transition_tables_panic :
    (∀ m : Nat, buildCO (2 + m) = BuildResult.panicked) ∧
    (∀ fuel : Nat, 2 ≤ fuel → ∀ (cc : CoordCube) (mv : Move),
      CoordCube.applyT fuel cc mv = none) := by
  have hb : ∀ m : Nat, buildCO (2 + m) = BuildResult.panicked := by
    intro m
    show populate_with coChecked (2 + m) = BuildResult.panicked
    rw [populate_with, coChecked_solved]
    exact populateLoop_panic_mono coChecked 2 m [] [(0, Cube.solved)]
      buildCO_two_panics
  refine ⟨hb, fun fuel hf cc mv => ?_⟩
  obtain ⟨m, rfl⟩ : ∃ m, fuel = 2 + m := ⟨fuel - 2, by omega⟩
  have hTT : TransitionTableInit (2 + m) = none := by
    rw [TransitionTableInit, hb m]
  rw [CoordCube.applyT, hTT]
  rfl

/-- Witness for `C2_transition_tables_panic`: at fuel 1000 the table build
has genuinely panicked, and applying U to the `CoordCube` of the solved cube
returns `none`. -/
theorem C2_transition_tables_panic_witness :
    buildCO (2 + 0) = BuildResult.panicked ∧
    CoordCube.applyT 1000 (CoordCube.fromCube Cube.solved) mU = none :=
  ⟨C2_transition_tables_panic.1 0,
   C2_transition_tables_panic.2 1000 (by decide)
     (CoordCube.fromCube Cube.solved) mU⟩

end Blastcube
